import Mathlib

/-!
Verification of the conv3d STL → glTF conversion library (`src/lib.rs`)
against its specification.

Shallow embedding conventions:
* `f32` is modelled by the inductive type `F32`: a finite value carried
  as an exact fraction (`Frac`), the two infinities, or NaN.  Arithmetic on
  finite values is exact (rounding is abstracted away); the special-value
  behaviour of
  `min`/`max`/`+`/`/` and of comparisons follows IEEE-754 and the Rust
  `f32::min` / `f32::max` semantics (NaN operands are ignored by min/max,
  comparisons involving NaN are false, `0.0 / 0.0` is NaN).
* Rust slices and `Vec`s are Lean `List`s; panicking indexing is modelled
  with `Option` (a `none` result is a panic).
* `usize` values are `Nat`; the `as u32` cast is `% 2 ^ 32`.
* The `gltf_builder` module (`GltfBuilder` and its push / merge operations)
  is declared by `lib.rs` but its source file is not part of the repository;
  those operations are modelled from the specification (see the doc comments
  starting with `Modelled from the spec:`).
-/

/-- An exact fraction `num / (dpred + 1)`: the denominator is positive by
construction.  Fractions are not normalised; all operations below are
plain `Int`/`Nat` arithmetic, so the kernel can evaluate them. -/
structure Frac where
  num : Int
  dpred : Nat
deriving DecidableEq, Repr

/-- The (always positive) denominator. -/
def Frac.den (a : Frac) : Nat := a.dpred + 1

/-- Fraction addition: `a/b + c/d = (a*d + c*b) / (b*d)`. -/
def Frac.add (a b : Frac) : Frac :=
  ⟨a.num * b.den + b.num * a.den, a.den * b.den - 1⟩

/-- Fraction division `(a/b) / (c/d) = (a*d) / (b*c)`, with the sign moved
to the numerator so the denominator stays positive.  Only meaningful when
the divisor's numerator is nonzero; `F32.div` branches that case out
first. -/
def Frac.div (a b : Frac) : Frac :=
  ⟨(if 0 ≤ b.num then a.num else -a.num) * b.den, a.den * b.num.natAbs - 1⟩

/-- Fraction comparison by cross-multiplication (valid because
denominators are positive). -/
def Frac.fle (a b : Frac) : Bool :=
  a.num * (b.den : Int) ≤ b.num * (a.den : Int)

/-- The fraction `n / 1`. -/
def Frac.ofInt (n : Int) : Frac := ⟨n, 0⟩

/-- Model of an `f32` value: finite (an exact fraction; rounding is
abstracted away), `+∞`, `-∞`, or NaN. -/
inductive F32 where
  | fin (q : Frac)
  | inf
  | negInf
  | nan
deriving DecidableEq, Repr

namespace F32

/-- The value `f32::MAX`, the largest finite `f32`:
`(2 - 2⁻²³) · 2¹²⁷ = 2¹²⁸ - 2¹⁰⁴`. -/
def fMAX : F32 := .fin (.ofInt 340282346638528859811704183484516925440)

/-- The value `f32::MIN`, the lowest finite `f32`: `-(2¹²⁸ - 2¹⁰⁴)`. -/
def fMIN : F32 := .fin (.ofInt (-340282346638528859811704183484516925440))

def isNan : F32 → Bool
  | .nan => true
  | _ => false

/-- IEEE-754 `<=` on `f32`: any comparison involving NaN is false;
`-∞ <= x <= +∞` for every non-NaN `x`; finite values compare as exact
fractions. -/
def fle : F32 → F32 → Bool
  | .nan, _ => false
  | _, .nan => false
  | .negInf, _ => true
  | _, .negInf => false
  | _, .inf => true
  | .inf, _ => false
  | .fin a, .fin b => a.fle b

/-- Rust `f32::min`: if one argument is NaN the other is returned,
otherwise the smaller value. -/
def fmin (a b : F32) : F32 :=
  if a.isNan then b
  else if b.isNan then a
  else if a.fle b then a else b

/-- Rust `f32::max`: if one argument is NaN the other is returned,
otherwise the larger value. -/
def fmax (a b : F32) : F32 :=
  if a.isNan then b
  else if b.isNan then a
  else if a.fle b then b else a

/-- IEEE-754 `f32` addition (finite addition is modelled exactly). -/
def add : F32 → F32 → F32
  | .nan, _ => .nan
  | _, .nan => .nan
  | .inf, .negInf => .nan
  | .negInf, .inf => .nan
  | .inf, _ => .inf
  | _, .inf => .inf
  | .negInf, _ => .negInf
  | _, .negInf => .negInf
  | .fin a, .fin b => .fin (a.add b)

/-- IEEE-754 `f32` division (finite division is modelled exactly; the sign
of zero is not modelled).  The case relevant to the claims:
`0.0 / 0.0 = NaN`, and a finite nonzero value divided by zero is a signed
infinity. -/
def div : F32 → F32 → F32
  | .nan, _ => .nan
  | _, .nan => .nan
  | .inf, .inf => .nan
  | .inf, .negInf => .nan
  | .negInf, .inf => .nan
  | .negInf, .negInf => .nan
  | .inf, .fin b => if 0 ≤ b.num then .inf else .negInf
  | .negInf, .fin b => if 0 ≤ b.num then .negInf else .inf
  | .fin _, .inf => .fin (.ofInt 0)
  | .fin _, .negInf => .fin (.ofInt 0)
  | .fin a, .fin b =>
    if b.num = 0 then
      (if a.num = 0 then .nan else if 0 < a.num then .inf else .negInf)
    else .fin (a.div b)

end F32

/-- A `[f32; 3]` triple (a vertex position, a normal, a bounds corner). -/
structure Vec3 where
  x : F32
  y : F32
  z : F32
deriving DecidableEq, Repr

namespace Vec3

/-- Axis indexing `v[i]` for `i ∈ {0, 1, 2}`. -/
def get (v : Vec3) (i : Fin 3) : F32 :=
  if i.val = 0 then v.x else if i.val = 1 then v.y else v.z

/-- The zero vector `[0.0, 0.0, 0.0]`. -/
def zero : Vec3 := ⟨.fin (.ofInt 0), .fin (.ofInt 0), .fin (.ofInt 0)⟩

/-- Componentwise `f32` addition. -/
def add (a b : Vec3) : Vec3 := ⟨a.x.add b.x, a.y.add b.y, a.z.add b.z⟩

/-- Componentwise division of a vector by an `f32` scalar. -/
def divS (a : Vec3) (c : F32) : Vec3 := ⟨a.x.div c, a.y.div c, a.z.div c⟩

/-- No component of the vector is NaN. -/
def noNan (v : Vec3) : Prop :=
  v.x.isNan = false ∧ v.y.isNan = false ∧ v.z.isNan = false

instance (v : Vec3) : Decidable v.noNan := by unfold noNan; infer_instance

end Vec3

/-- Embedding of `bounding_coords` (lib.rs lines 27–38): starts from
`min = [f32::MAX; 3]`, `max = [f32::MIN; 3]` and folds every point in with
`f32::min` / `f32::max` per axis. -/
def bounding_coords (points : List Vec3) : Vec3 × Vec3 :=
  points.foldl
    (fun acc point =>
      (⟨acc.1.x.fmin point.x, acc.1.y.fmin point.y, acc.1.z.fmin point.z⟩,
       ⟨acc.2.x.fmax point.x, acc.2.y.fmax point.y, acc.2.z.fmax point.z⟩))
    (⟨F32.fMAX, F32.fMAX, F32.fMAX⟩, ⟨F32.fMIN, F32.fMIN, F32.fMIN⟩)

/-- A face of the input mesh (stl_io `IndexedTriangle`): three vertex
indices (`usize`, modelled as `Nat`) and one face normal. -/
structure Face where
  v0 : Nat
  v1 : Nat
  v2 : Nat
  normal : Vec3
deriving DecidableEq, Repr

/-- The input mesh (stl_io `IndexedMesh`): a vertex position array and a
face list. -/
structure IndexedMesh where
  vertices : List Vec3
  faces : List Face
deriving DecidableEq, Repr

/-- One step of the normal-accumulation loop body (lib.rs lines 63–66):
`normals[vi] += face.normal; normals_count[vi] += 1`.  The indexing panics
(`none`) when `vi` is out of bounds. -/
def addNormalAt (acc : List Vec3 × List Nat) (vi : Nat) (n : Vec3) :
    Option (List Vec3 × List Nat) :=
  match acc.1.get? vi, acc.2.get? vi with
  | some cur, some c => some (acc.1.set vi (cur.add n), acc.2.set vi (c + 1))
  | _, _ => none

/-- The inner loop of lib.rs lines 62–67: `for vi in face.vertices { ... }`,
visiting the face's three vertex indices in order. -/
def accFace (acc : List Vec3 × List Nat) (f : Face) :
    Option (List Vec3 × List Nat) :=
  (addNormalAt acc f.v0 f.normal).bind fun a1 =>
    (addNormalAt a1 f.v1 f.normal).bind fun a2 =>
      addNormalAt a2 f.v2 f.normal

/-- The outer loop of lib.rs lines 61–68: `for face in &stl.faces { ... }`. -/
def accFaces (faces : List Face) (acc : List Vec3 × List Nat) :
    Option (List Vec3 × List Nat) :=
  match faces with
  | [] => some acc
  | f :: fs => (accFace acc f).bind (accFaces fs)

/-- The normalisation loop of lib.rs lines 71–75:
`normals[i] = [n[0]/count, n[1]/count, n[2]/count]` with
`count = normals_count[i] as f32`.  The two lists always have equal length
(`normals_count` is created as `vec![0; normals.len()]`). -/
def normalizeNormals : List Vec3 → List Nat → List Vec3
  | n :: ns, c :: cs => n.divS (.fin (.ofInt c)) :: normalizeNormals ns cs
  | _, _ => []

/-- The whole per-vertex normal computation of `convert_stl_to_gltf`
(lib.rs lines 54–75): zero-initialise, accumulate face normals, divide by
the per-vertex contribution count. -/
def computeNormals (stl : IndexedMesh) : Option (List Vec3) :=
  (accFaces stl.faces
      (stl.vertices.map fun _ => Vec3.zero,
       List.replicate (stl.vertices.map fun _ => Vec3.zero).length 0)).map
    fun acc => normalizeNormals acc.1 acc.2

/-- Typed numeric payload handed to `push_buffer_with_view`: either an
array of 3-component `f32` vectors or an array of `u32` scalars, serialized
in the type's natural 4-byte little-endian encoding (so a `Vec3` element
occupies 12 bytes and a `u32` element 4 bytes). -/
inductive BufferData where
  | f32x3 (elems : List Vec3)
  | u32 (elems : List Nat)
deriving DecidableEq, Repr

/-- Byte length of the serialized payload. -/
def BufferData.byteLength : BufferData → Nat
  | .f32x3 l => 12 * l.length
  | .u32 l => 4 * l.length

/-- A buffer: an opaque blob (here kept in typed form) plus an optional
name. -/
structure GBuffer where
  name : Option String
  data : BufferData
deriving DecidableEq, Repr

/-- A buffer view: a byte range into one buffer, an optional target tag
(`some 1` tags index data), an optional byte stride. -/
structure GBufferView where
  buffer : Nat
  byteOffset : Nat
  byteLength : Nat
  target : Option Nat
  byteStride : Option Nat
deriving DecidableEq, Repr

/-- Element shape and component type of an accessor: 3-component float
vectors (12 bytes per element) or scalar unsigned 32-bit ints (4 bytes). -/
inductive AccKind where
  | vec3f
  | scalarU32
deriving DecidableEq, Repr

/-- Size in bytes of one accessor element. -/
def AccKind.elemByteSize : AccKind → Nat
  | .vec3f => 12
  | .scalarU32 => 4

/-- An accessor: how to reinterpret a slice of a buffer view as typed
elements. -/
structure GAccessor where
  name : Option String
  view : Nat
  byteOffset : Nat
  count : Nat
  kind : AccKind
  minB : Option Vec3
  maxB : Option Vec3
deriving DecidableEq, Repr

/-- Vertex-attribute semantics used by the pipeline. -/
inductive Semantic where
  | Positions
  | Normals
deriving DecidableEq, Repr

/-- Draw mode of a primitive (the pipeline always uses `Triangles`). -/
inductive PrimMode where
  | Points
  | Lines
  | Triangles
deriving DecidableEq, Repr

/-- A draw primitive: attribute map (the source builds a `BTreeMap` by
inserting `Positions` then `Normals`; modelled as the association list in
that order), optional index accessor, draw mode. -/
structure GPrimitive where
  attributes : List (Semantic × Nat)
  indices : Option Nat
  mode : PrimMode
deriving DecidableEq, Repr

/-- A mesh: primitives plus an optional name. -/
structure GMesh where
  name : Option String
  primitives : List GPrimitive
deriving DecidableEq, Repr

/-- A node: an optional name and an optional mesh reference (leaf node). -/
structure GNode where
  name : Option String
  mesh : Option Nat
deriving DecidableEq, Repr

/-- A scene: the node indices participating in it. -/
structure GScene where
  nodes : List Nat
deriving DecidableEq, Repr

/-- The append-only document builder state. -/
structure GltfBuilder where
  buffers : List GBuffer
  bufferViews : List GBufferView
  accessors : List GAccessor
  meshes : List GMesh
  nodes : List GNode
  scenes : List GScene
  defaultScene : Option Nat
deriving DecidableEq, Repr

/-- Modelled from the spec (the `gltf_builder` module's source file is not
in the repository): `GltfBuilder::new()` — the empty document. -/
def GltfBuilder.new : GltfBuilder :=
  ⟨[], [], [], [], [], [], none⟩

namespace GltfBuilder

/-- Modelled from the spec: `push_buffer_with_view(name, data, target,
byte_stride)` serializes the typed array, appends a new buffer holding
exactly those bytes, and appends a view spanning the whole buffer (offset
0, length = the buffer's byte length) with the given target tag and
stride; returns the new view's index. -/
def push_buffer_with_view (g : GltfBuilder) (name : Option String)
    (data : BufferData) (target : Option Nat) (byteStride : Option Nat) :
    GltfBuilder × Nat :=
  ({ g with
      buffers := g.buffers ++ [⟨name, data⟩],
      bufferViews := g.bufferViews ++
        [⟨g.buffers.length, 0, data.byteLength, target, byteStride⟩] },
   g.bufferViews.length)

/-- Modelled from the spec: `push_accessor_vec3(name, view, byte_offset,
count, min, max)` appends an accessor of 3-component float elements and
returns its index. -/
def push_accessor_vec3 (g : GltfBuilder) (name : Option String)
    (view byteOffset count : Nat) (minB maxB : Option Vec3) :
    GltfBuilder × Nat :=
  ({ g with
      accessors := g.accessors ++
        [⟨name, view, byteOffset, count, .vec3f, minB, maxB⟩] },
   g.accessors.length)

/-- Modelled from the spec: `push_accessor_u32(name, view, byte_offset,
count)` appends a scalar unsigned-32-bit accessor and returns its index. -/
def push_accessor_u32 (g : GltfBuilder) (name : Option String)
    (view byteOffset count : Nat) : GltfBuilder × Nat :=
  ({ g with
      accessors := g.accessors ++
        [⟨name, view, byteOffset, count, .scalarU32, none, none⟩] },
   g.accessors.length)

/-- Modelled from the spec: `push_mesh(name, primitives, weights)` appends
a mesh and returns its index (weights are unused by the pipeline and not
modelled). -/
def push_mesh (g : GltfBuilder) (name : Option String)
    (primitives : List GPrimitive) : GltfBuilder × Nat :=
  ({ g with meshes := g.meshes ++ [⟨name, primitives⟩] }, g.meshes.length)

/-- Modelled from the spec: `push_node(name, mesh, transform, children)`
appends a node and returns its index (transform and children are `None` in
the pipeline and not modelled). -/
def push_node (g : GltfBuilder) (name : Option String) (mesh : Option Nat) :
    GltfBuilder × Nat :=
  ({ g with nodes := g.nodes ++ [⟨name, mesh⟩] }, g.nodes.length)

/-- Modelled from the spec: `push_scene(nodes)` appends a scene and
returns its index. -/
def push_scene (g : GltfBuilder) (nodeIdxs : List Nat) : GltfBuilder × Nat :=
  ({ g with scenes := g.scenes ++ [⟨nodeIdxs⟩] }, g.scenes.length)

/-- Modelled from the spec: `set_default_scene(scene)` records the default
scene index. -/
def set_default_scene (g : GltfBuilder) (scene : Option Nat) : GltfBuilder :=
  { g with defaultScene := scene }

end GltfBuilder

/-- Embedding of `convert_stl_to_gltf` (lib.rs lines 40–144).  The
filename argument is modelled by its file stem: `fileStem = none` models a
path with no file stem, on which `.file_stem().unwrap()` panics (`none`
result); the out-of-bounds panics of the accumulation loop are likewise
`none`.  A `some` result is the value the Rust function returns. -/
def convert_stl_to_gltf (stl : IndexedMesh) (fileStem : Option String) :
    Option (Except String GltfBuilder) := do
  let mesh_name ← fileStem
  let gltf := GltfBuilder.new
  let with_indices := true
  let positions := stl.vertices
  let normals0 := stl.vertices.map fun _ => Vec3.zero
  let normals_count0 : List Nat := List.replicate normals0.length 0
  let (normalsAcc, normals_count) ← accFaces stl.faces (normals0, normals_count0)
  let normals := normalizeNormals normalsAcc normals_count
  let (min, max) := bounding_coords positions
  let vcount := positions.length
  let (gltf, positions_view) :=
    gltf.push_buffer_with_view (some "positions") (.f32x3 positions) none none
  let (gltf, normals_view) :=
    gltf.push_buffer_with_view (some "normals") (.f32x3 normals) none none
  let (gltf, positionsIdx) :=
    gltf.push_accessor_vec3 (some "positions") positions_view 0 vcount
      (some min) (some max)
  let (gltf, normalsIdx) :=
    gltf.push_accessor_vec3 (some "normals") normals_view 3 vcount none none
  let indices := stl.faces.flatMap fun f =>
    [f.v0 % 2 ^ 32, f.v1 % 2 ^ 32, f.v2 % 2 ^ 32]
  let nb_indices := indices.length
  let (gltf, indices_view) :=
    gltf.push_buffer_with_view (some "indices") (.u32 indices) (some 1) none
  let (gltf, indicesIdx) :=
    if with_indices then
      let p := gltf.push_accessor_u32 (some "indices") indices_view 0 nb_indices
      (p.1, some p.2)
    else (gltf, none)
  let primitive : GPrimitive :=
    { attributes := [(.Positions, positionsIdx), (.Normals, normalsIdx)],
      indices := indicesIdx,
      mode := .Triangles }
  let (gltf, mesh) := gltf.push_mesh (some mesh_name) [primitive]
  let (gltf, node) := gltf.push_node (some mesh_name) (some mesh)
  let (gltf, scene) := gltf.push_scene [node]
  let gltf := gltf.set_default_scene (some scene)
  pure (Except.ok gltf)

/-- A buffer view of a builder-form document, seen at byte level (for the
buffer-merge operation): owning buffer index, byte range, target tag. -/
structure BView where
  buffer : Nat
  byteOffset : Nat
  byteLength : Nat
  target : Option Nat
deriving DecidableEq, Repr

/-- A builder-form document seen at byte level: raw byte buffers and the
views into them (the part of the document `merge_gltf_buffers` rewrites). -/
structure BDoc where
  buffers : List (List Nat)
  views : List BView
deriving DecidableEq, Repr

/-- Total byte length of the buffers preceding buffer `i`, i.e. the
position at which buffer `i`'s bytes land in the concatenated buffer. -/
def bytesBeforeBuffer (bufs : List (List Nat)) (i : Nat) : Nat :=
  ((bufs.take i).map List.length).sum

/-- Modelled from the spec (the `gltf_builder` module's source file is not
in the repository): `merge_gltf_buffers` consolidates all buffers into one
by concatenating their bytes in order and rewriting every view's byte
offset to its new position within the merged buffer; afterwards every view
refers to the single buffer of logical index 0. -/
def merge_gltf_buffers (d : BDoc) : BDoc :=
  { buffers := [d.buffers.flatten],
    views := d.views.map fun v =>
      { v with
          buffer := 0,
          byteOffset := bytesBeforeBuffer d.buffers v.buffer + v.byteOffset } }

/-- The byte content addressable through a `(view, offset, count)` triple:
`count` bytes starting `offset` bytes into the view's byte range.  `none`
when the view or its buffer does not exist or the range is out of bounds. -/
def readBytes (d : BDoc) (viewIdx off count : Nat) : Option (List Nat) :=
  match d.views[viewIdx]? with
  | none => none
  | some v =>
    match d.buffers[v.buffer]? with
    | none => none
    | some buf =>
      if off + count ≤ v.byteLength ∧ v.byteOffset + v.byteLength ≤ buf.length
      then some ((buf.drop (v.byteOffset + off)).take count)
      else none

/-- Structural well-formedness of a builder-form document (spec §3): every
view refers to an existing buffer and lies within it
(`offset + length <= owning buffer's length`). -/
def BDoc.wf (d : BDoc) : Bool :=
  d.views.all fun v =>
    match d.buffers[v.buffer]? with
    | some buf => v.byteOffset + v.byteLength ≤ buf.length
    | none => false

/-! ### Concrete inputs used by counterexamples and witnesses -/

/-- The single-triangle mesh of the spec's end-to-end scenario: vertices
`[[0,0,0],[1,0,0],[0,1,0]]`, one face `{vertices:[0,1,2], normal:[0,0,1]}`. -/
def tri : IndexedMesh :=
  ⟨[⟨.fin (.ofInt 0), .fin (.ofInt 0), .fin (.ofInt 0)⟩, ⟨.fin (.ofInt 1), .fin (.ofInt 0), .fin (.ofInt 0)⟩, ⟨.fin (.ofInt 0), .fin (.ofInt 1), .fin (.ofInt 0)⟩],
   [⟨0, 1, 2, ⟨.fin (.ofInt 0), .fin (.ofInt 0), .fin (.ofInt 1)⟩⟩]⟩

/-- A point whose first coordinate is NaN. -/
def nanPoint : Vec3 := ⟨.nan, .fin (.ofInt 0), .fin (.ofInt 0)⟩

/-- A mesh with one vertex and no faces: its only vertex is referenced by
zero faces. -/
def lonely : IndexedMesh := ⟨[⟨.fin (.ofInt 1), .fin (.ofInt 2), .fin (.ofInt 3)⟩], []⟩

/-! ### C4: `bounding_coords` on the empty slice -/

/-- C4, counterexample: on the empty slice `bounding_coords` does NOT
return the infinity sentinels `([+∞,+∞,+∞], [-∞,-∞,-∞])` claimed by the
spec. -/
theorem C4_counterexample :
    bounding_coords [] ≠
      (⟨F32.inf, F32.inf, F32.inf⟩, ⟨F32.negInf, F32.negInf, F32.negInf⟩) := by
  decide

/-- C4 (amended): for an empty point slice, `bounding_coords` returns
`min = [f32::MAX; 3]` and `max = [f32::MIN; 3]` — the largest and lowest
finite `f32` values, which are finite sentinels, not infinities. -/
theorem C4_empty_returns_fmax_fmin :
    bounding_coords [] =
      (⟨F32.fMAX, F32.fMAX, F32.fMAX⟩, ⟨F32.fMIN, F32.fMIN, F32.fMIN⟩) := by
  rfl


instance {e a : Type} [DecidableEq e] [DecidableEq a] : DecidableEq (Except e a) := fun
  | .ok x, .ok y =>
    if h : x = y then .isTrue (by rw [h]) else .isFalse (by intro he; cases he; exact h rfl)
  | .ok _, .error _ => .isFalse (by intro h; cases h)
  | .error _, .ok _ => .isFalse (by intro h; cases h)
  | .error x, .error y =>
    if h : x = y then .isTrue (by rw [h]) else .isFalse (by intro he; cases he; exact h rfl)

/-- The builder state `convert_stl_to_gltf` produces on `tri` with file
stem "torus" (three buffers and views, three accessors, one mesh, one
node, one scene, default scene 0). -/
def triBuilder : GltfBuilder :=
  { buffers :=
      [⟨some "positions", .f32x3 tri.vertices⟩,
       ⟨some "normals", .f32x3
          [⟨.fin ⟨0, 0⟩, .fin ⟨0, 0⟩, .fin ⟨1, 0⟩⟩,
           ⟨.fin ⟨0, 0⟩, .fin ⟨0, 0⟩, .fin ⟨1, 0⟩⟩,
           ⟨.fin ⟨0, 0⟩, .fin ⟨0, 0⟩, .fin ⟨1, 0⟩⟩]⟩,
       ⟨some "indices", .u32 [0, 1, 2]⟩],
    bufferViews :=
      [⟨0, 0, 36, none, none⟩, ⟨1, 0, 36, none, none⟩, ⟨2, 0, 12, some 1, none⟩],
    accessors :=
      [⟨some "positions", 0, 0, 3, .vec3f,
        some ⟨.fin ⟨0, 0⟩, .fin ⟨0, 0⟩, .fin ⟨0, 0⟩⟩,
        some ⟨.fin ⟨1, 0⟩, .fin ⟨1, 0⟩, .fin ⟨0, 0⟩⟩⟩,
       ⟨some "normals", 1, 3, 3, .vec3f, none, none⟩,
       ⟨some "indices", 2, 0, 3, .scalarU32, none, none⟩],
    meshes :=
      [⟨some "torus", [⟨[(.Positions, 0), (.Normals, 1)], some 2, .Triangles⟩]⟩],
    nodes := [⟨some "torus", some 0⟩],
    scenes := [⟨[0]⟩],
    defaultScene := some 0 }

/-! ### C1: the accessor invariant over the pipeline's accessors -/

/-- C1 (code bug): on the single-triangle mesh the normal accessor
(accessor index 1, pushed with byte offset 3 at lib.rs line 97) violates
the accessor invariant `byteOffset + count * elementByteSize <=
view.length`: its view spans the whole 36-byte normal buffer, but
`3 + 3 * 12 = 39 > 36`.  The position accessor (index 0, offset 0) and the
index accessor (index 2, offset 0) do satisfy the invariant.  Because the
normal view always has exactly `count * 12` bytes, the stray offset 3
breaks the invariant on every mesh, contradicting the spec. -/
theorem C1_normal_accessor_violates_invariant :
    convert_stl_to_gltf tri (some "torus") = some (.ok triBuilder) ∧
    (∃ a, triBuilder.accessors.get? 1 = some a ∧
      ∃ v, triBuilder.bufferViews.get? a.view = some v ∧
        v.byteLength < a.byteOffset + a.count * a.kind.elemByteSize) ∧
    (∃ a, triBuilder.accessors.get? 0 = some a ∧
      ∃ v, triBuilder.bufferViews.get? a.view = some v ∧
        a.byteOffset + a.count * a.kind.elemByteSize ≤ v.byteLength) ∧
    (∃ a, triBuilder.accessors.get? 2 = some a ∧
      ∃ v, triBuilder.bufferViews.get? a.view = some v ∧
        a.byteOffset + a.count * a.kind.elemByteSize ≤ v.byteLength) := by
  decide

/-! ### Order lemmas for the `f32` model (used for the bounding-box claim) -/

theorem Frac.den_pos (a : Frac) : (0 : Int) < a.den := by
  simp [Frac.den]

theorem Frac.fleRefl (a : Frac) : a.fle a = true := by
  simp [Frac.fle]

theorem Frac.fleTotal (a b : Frac) : a.fle b = true ∨ b.fle a = true := by
  simp [Frac.fle]
  omega

theorem Frac.fleTrans {a b c : Frac} (h1 : a.fle b = true)
    (h2 : b.fle c = true) : a.fle c = true := by
  simp [Frac.fle] at *
  have hb := b.den_pos
  have h1' := mul_le_mul_of_nonneg_right h1 (le_of_lt c.den_pos)
  have h2' := mul_le_mul_of_nonneg_right h2 (le_of_lt a.den_pos)
  have key : a.num * c.den * b.den ≤ c.num * a.den * b.den := by nlinarith
  exact le_of_mul_le_mul_right key hb

theorem F32.fle_refl (a : F32) (h : a.isNan = false) : a.fle a = true := by
  cases a <;> simp_all [F32.fle, F32.isNan, Frac.fleRefl]

theorem F32.fle_total (a b : F32) (ha : a.isNan = false)
    (hb : b.isNan = false) : a.fle b = true ∨ b.fle a = true := by
  cases a <;> cases b <;> simp_all [F32.fle, F32.isNan, Frac.fleTotal]

theorem F32.fle_trans {a b c : F32} (h1 : a.fle b = true)
    (h2 : b.fle c = true) : a.fle c = true := by
  cases a <;> cases b <;> cases c <;> simp_all [F32.fle]
  exact Frac.fleTrans h1 h2

theorem F32.fmin_cases (a b : F32) : a.fmin b = a ∨ a.fmin b = b := by
  unfold F32.fmin
  split_ifs <;> simp

theorem F32.fmax_cases (a b : F32) : a.fmax b = a ∨ a.fmax b = b := by
  unfold F32.fmax
  split_ifs <;> simp

theorem F32.fmin_not_nan {a b : F32} (ha : a.isNan = false)
    (hb : b.isNan = false) : (a.fmin b).isNan = false := by
  rcases F32.fmin_cases a b with h | h <;> rw [h] <;> assumption

theorem F32.fmax_not_nan {a b : F32} (ha : a.isNan = false)
    (hb : b.isNan = false) : (a.fmax b).isNan = false := by
  rcases F32.fmax_cases a b with h | h <;> rw [h] <;> assumption

theorem F32.fmin_fle_left {a b : F32} (ha : a.isNan = false)
    (hb : b.isNan = false) : (a.fmin b).fle a = true := by
  unfold F32.fmin
  rw [ha, hb]
  simp only [Bool.false_eq_true, if_false]
  split_ifs with h
  · exact F32.fle_refl a ha
  · rcases F32.fle_total a b ha hb with h' | h'
    · exact absurd h' h
    · exact h'

theorem F32.fmin_fle_right {a b : F32} (ha : a.isNan = false)
    (hb : b.isNan = false) : (a.fmin b).fle b = true := by
  unfold F32.fmin
  rw [ha, hb]
  simp only [Bool.false_eq_true, if_false]
  split_ifs with h
  · exact h
  · exact F32.fle_refl b hb

theorem F32.fle_fmax_left {a b : F32} (ha : a.isNan = false)
    (hb : b.isNan = false) : a.fle (a.fmax b) = true := by
  unfold F32.fmax
  rw [ha, hb]
  simp only [Bool.false_eq_true, if_false]
  split_ifs with h
  · exact h
  · exact F32.fle_refl a ha

theorem F32.fle_fmax_right {a b : F32} (ha : a.isNan = false)
    (hb : b.isNan = false) : b.fle (a.fmax b) = true := by
  unfold F32.fmax
  rw [ha, hb]
  simp only [Bool.false_eq_true, if_false]
  split_ifs with h
  · exact F32.fle_refl b hb
  · rcases F32.fle_total a b ha hb with h' | h'
    · exact absurd h' h
    · exact h'

/-- Folding `f32::min` over a NaN-free list from a NaN-free seed yields a
NaN-free lower bound of the seed and of every list element. -/
theorem foldl_fmin_spec (l : List F32) (a : F32) (ha : a.isNan = false)
    (hl : ∀ x ∈ l, x.isNan = false) :
    (l.foldl F32.fmin a).isNan = false ∧ (l.foldl F32.fmin a).fle a = true ∧
      ∀ x ∈ l, (l.foldl F32.fmin a).fle x = true := by
  induction l generalizing a with
  | nil => simpa using ⟨ha, F32.fle_refl a ha⟩
  | cons p t ih =>
    have hp : p.isNan = false := hl p (by simp)
    have ht : ∀ x ∈ t, x.isNan = false := fun x hx => hl x (by simp [hx])
    have ha' : (a.fmin p).isNan = false := F32.fmin_not_nan ha hp
    obtain ⟨h1, h2, h3⟩ := ih (a.fmin p) ha' ht
    refine ⟨h1, ?_, ?_⟩
    · exact F32.fle_trans h2 (F32.fmin_fle_left ha hp)
    · intro x hx
      rcases List.mem_cons.mp hx with rfl | hx
      · exact F32.fle_trans h2 (F32.fmin_fle_right ha hp)
      · exact h3 x hx

/-- Folding `f32::max` over a NaN-free list from a NaN-free seed yields a
NaN-free upper bound of the seed and of every list element. -/
theorem foldl_fmax_spec (l : List F32) (a : F32) (ha : a.isNan = false)
    (hl : ∀ x ∈ l, x.isNan = false) :
    (l.foldl F32.fmax a).isNan = false ∧ a.fle (l.foldl F32.fmax a) = true ∧
      ∀ x ∈ l, x.fle (l.foldl F32.fmax a) = true := by
  induction l generalizing a with
  | nil => simpa using ⟨ha, F32.fle_refl a ha⟩
  | cons p t ih =>
    have hp : p.isNan = false := hl p (by simp)
    have ht : ∀ x ∈ t, x.isNan = false := fun x hx => hl x (by simp [hx])
    have ha' : (a.fmax p).isNan = false := F32.fmax_not_nan ha hp
    obtain ⟨h1, h2, h3⟩ := ih (a.fmax p) ha' ht
    refine ⟨h1, ?_, ?_⟩
    · exact F32.fle_trans (F32.fle_fmax_left ha hp) h2
    · intro x hx
      rcases List.mem_cons.mp hx with rfl | hx
      · exact F32.fle_trans (F32.fle_fmax_right ha hp) h2
      · exact h3 x hx

/-- The fold of `bounding_coords` decomposes into six per-axis scalar
folds. -/
theorem bounding_coords_foldl (pts : List Vec3) (mn mx : Vec3) :
    pts.foldl
      (fun acc point =>
        (⟨acc.1.x.fmin point.x, acc.1.y.fmin point.y, acc.1.z.fmin point.z⟩,
         ⟨acc.2.x.fmax point.x, acc.2.y.fmax point.y, acc.2.z.fmax point.z⟩))
      (mn, mx) =
    (⟨(pts.map Vec3.x).foldl F32.fmin mn.x, (pts.map Vec3.y).foldl F32.fmin mn.y,
      (pts.map Vec3.z).foldl F32.fmin mn.z⟩,
     ⟨(pts.map Vec3.x).foldl F32.fmax mx.x, (pts.map Vec3.y).foldl F32.fmax mx.y,
      (pts.map Vec3.z).foldl F32.fmax mx.z⟩) := by
  induction pts generalizing mn mx with
  | nil => rfl
  | cons p t ih =>
    simp only [List.foldl_cons, List.map_cons]
    exact ih ⟨mn.x.fmin p.x, mn.y.fmin p.y, mn.z.fmin p.z⟩
      ⟨mx.x.fmax p.x, mx.y.fmax p.y, mx.z.fmax p.z⟩

/-- Per-axis characterisation of `bounding_coords`. -/
theorem bounding_coords_get (pts : List Vec3) (i : Fin 3) :
    (bounding_coords pts).1.get i =
      (pts.map (fun p => p.get i)).foldl F32.fmin F32.fMAX ∧
    (bounding_coords pts).2.get i =
      (pts.map (fun p => p.get i)).foldl F32.fmax F32.fMIN := by
  unfold bounding_coords
  rw [bounding_coords_foldl]
  fin_cases i <;> simp [Vec3.get]

theorem Vec3.noNan_get {v : Vec3} (h : v.noNan) (i : Fin 3) :
    (v.get i).isNan = false := by
  obtain ⟨h1, h2, h3⟩ := h
  unfold Vec3.get
  split_ifs <;> assumption

/-! ### C6: bounds of `bounding_coords` on non-empty input -/

/-- C6, counterexample: for the non-empty slice `[nanPoint]` (one point
whose first coordinate is NaN) the claimed property `min[0] <= max[0]`
fails: both `f32::min` and `f32::max` ignore the NaN coordinate, so the
result stays at the seed pair `(f32::MAX, f32::MIN)` and
`min[0] <= max[0]` is false (as is `min[0] <= p[0] <= max[0]`, since any
comparison with NaN is false). -/
theorem C6_counterexample :
    F32.fle ((bounding_coords [nanPoint]).1.get 0)
        ((bounding_coords [nanPoint]).2.get 0) = false := by
  decide

/-- C6 (amended): for every non-empty point slice NONE OF WHOSE
COORDINATES IS NaN, the result `(min, max)` of `bounding_coords`
satisfies `min[i] <= max[i]` for every axis `i ∈ {0,1,2}`, and every
point's `i`-th coordinate lies within the closed interval
`[min[i], max[i]]`. -/
theorem C6_nonempty_bounds (pts : List Vec3) (hne : pts ≠ [])
    (hnn : ∀ p ∈ pts, p.noNan) (i : Fin 3) :
    F32.fle ((bounding_coords pts).1.get i) ((bounding_coords pts).2.get i)
        = true ∧
    ∀ p ∈ pts,
      F32.fle ((bounding_coords pts).1.get i) (p.get i) = true ∧
      F32.fle (p.get i) ((bounding_coords pts).2.get i) = true := by
  obtain ⟨hmin, hmax⟩ := bounding_coords_get pts i
  have hxs : ∀ x ∈ pts.map (fun p => p.get i), x.isNan = false := by
    intro x hx
    obtain ⟨p, hp, rfl⟩ := List.mem_map.mp hx
    exact Vec3.noNan_get (hnn p hp) i
  obtain ⟨hm1, _, hm3⟩ :=
    foldl_fmin_spec (pts.map (fun p => p.get i)) F32.fMAX rfl hxs
  obtain ⟨hM1, _, hM3⟩ :=
    foldl_fmax_spec (pts.map (fun p => p.get i)) F32.fMIN rfl hxs
  have hpt : ∀ p ∈ pts,
      F32.fle ((bounding_coords pts).1.get i) (p.get i) = true ∧
      F32.fle (p.get i) ((bounding_coords pts).2.get i) = true := by
    intro p hp
    have hmem : p.get i ∈ pts.map (fun p => p.get i) :=
      List.mem_map.mpr ⟨p, hp, rfl⟩
    exact ⟨hmin ▸ hm3 _ hmem, hmax ▸ hM3 _ hmem⟩
  obtain ⟨p0, t, rfl⟩ := List.exists_cons_of_ne_nil hne
  have h0 := hpt p0 (by simp)
  exact ⟨F32.fle_trans h0.1 h0.2, hpt⟩

/-- C6, witness: the single-point slice `[[0,1,2]]` is non-empty and
NaN-free, and the bounds property holds on it for axis 0. -/
theorem C6_witness :
    (([⟨.fin ⟨0, 0⟩, .fin ⟨1, 0⟩, .fin ⟨2, 0⟩⟩] : List Vec3) ≠ []) ∧
    (∀ p ∈ ([⟨.fin ⟨0, 0⟩, .fin ⟨1, 0⟩, .fin ⟨2, 0⟩⟩] : List Vec3), p.noNan) ∧
    (F32.fle ((bounding_coords [⟨.fin ⟨0, 0⟩, .fin ⟨1, 0⟩, .fin ⟨2, 0⟩⟩]).1.get 0)
        ((bounding_coords [⟨.fin ⟨0, 0⟩, .fin ⟨1, 0⟩, .fin ⟨2, 0⟩⟩]).2.get 0) = true ∧
      ∀ p ∈ ([⟨.fin ⟨0, 0⟩, .fin ⟨1, 0⟩, .fin ⟨2, 0⟩⟩] : List Vec3),
        F32.fle ((bounding_coords [⟨.fin ⟨0, 0⟩, .fin ⟨1, 0⟩, .fin ⟨2, 0⟩⟩]).1.get 0)
            (p.get 0) = true ∧
        F32.fle (p.get 0)
            ((bounding_coords [⟨.fin ⟨0, 0⟩, .fin ⟨1, 0⟩, .fin ⟨2, 0⟩⟩]).2.get 0) = true) :=
  ⟨by decide, by decide,
    C6_nonempty_bounds [⟨.fin ⟨0, 0⟩, .fin ⟨1, 0⟩, .fin ⟨2, 0⟩⟩]
      (by decide) (by decide) 0⟩

/-! ### Characterisation of the normal-accumulation loop -/

/-- The face normals contributed to vertex `i` by one face: one copy of
`face.normal` per occurrence of `i` among the face's three vertex indices,
in the order the loop visits them. -/
def occs (f : Face) (i : Nat) : List Vec3 :=
  (if f.v0 = i then [f.normal] else []) ++ (if f.v1 = i then [f.normal] else []) ++
    (if f.v2 = i then [f.normal] else [])

/-- The face normals contributed to vertex `i` by a list of faces, in face
order: one copy of the face's normal per referencing occurrence. -/
def occsAll (faces : List Face) (i : Nat) : List Vec3 :=
  match faces with
  | [] => []
  | f :: fs => occs f i ++ occsAll fs i

theorem addNormalAt_get? {acc acc' : List Vec3 × List Nat} {vi : Nat} {n : Vec3}
    (h : addNormalAt acc vi n = some acc') (i : Nat) :
    acc'.1[i]? = (if vi = i then acc.1[i]?.map (fun v => v.add n) else acc.1[i]?) ∧
    acc'.2[i]? = (if vi = i then acc.2[i]?.map (fun c => c + 1) else acc.2[i]?) := by
  unfold addNormalAt at h
  cases hv : acc.1.get? vi with
  | none => rw [hv] at h; exact absurd h (by simp)
  | some cur =>
    cases hc : acc.2.get? vi with
    | none => rw [hv, hc] at h; exact absurd h (by simp)
    | some c =>
      rw [hv, hc] at h
      obtain rfl : (acc.1.set vi (cur.add n), acc.2.set vi (c + 1)) = acc' :=
        Option.some_injective _ h
      rw [List.get?_eq_getElem?] at hv hc
      constructor <;> simp only [List.getElem?_set] <;> split_ifs with he hl
      · subst he; rw [hv]; rfl
      · subst he
        exact absurd hv (by simp [List.getElem?_eq_none (Nat.le_of_not_lt hl)])
      · rfl
      · subst he; rw [hc]; rfl
      · subst he
        exact absurd hc (by simp [List.getElem?_eq_none (Nat.le_of_not_lt hl)])
      · rfl

theorem accFace_get? {acc acc' : List Vec3 × List Nat} {f : Face}
    (h : accFace acc f = some acc') (i : Nat) :
    acc'.1[i]? = acc.1[i]?.map (fun v => (occs f i).foldl Vec3.add v) ∧
    acc'.2[i]? = acc.2[i]?.map (fun c => c + (occs f i).length) := by
  unfold accFace at h
  rcases Option.bind_eq_some.mp h with ⟨a1, h1, h'⟩
  rcases Option.bind_eq_some.mp h' with ⟨a2, h2, h3⟩
  obtain ⟨e1v, e1c⟩ := addNormalAt_get? h1 i
  obtain ⟨e2v, e2c⟩ := addNormalAt_get? h2 i
  obtain ⟨e3v, e3c⟩ := addNormalAt_get? h3 i
  constructor
  · rw [e3v, e2v, e1v]
    cases ho : acc.1[i]? <;>
      split_ifs <;> simp_all [occs, List.foldl_append]
  · rw [e3c, e2c, e1c]
    cases ho : acc.2[i]? <;>
      split_ifs <;> simp_all [occs, List.foldl_append]

theorem accFaces_get? {faces : List Face} {acc acc' : List Vec3 × List Nat}
    (h : accFaces faces acc = some acc') (i : Nat) :
    acc'.1[i]? = acc.1[i]?.map (fun v => (occsAll faces i).foldl Vec3.add v) ∧
    acc'.2[i]? = acc.2[i]?.map (fun c => c + (occsAll faces i).length) := by
  induction faces generalizing acc with
  | nil =>
    obtain rfl : acc = acc' := Option.some_injective _ h
    simp [occsAll, Option.map_id']
  | cons f fs ih =>
    rcases Option.bind_eq_some.mp h with ⟨a1, h1, h2⟩
    obtain ⟨e1v, e1c⟩ := accFace_get? h1 i
    obtain ⟨e2v, e2c⟩ := ih h2
    rw [e2v, e1v, e2c, e1c, Option.map_map, Option.map_map]
    constructor <;> (simp [occsAll, List.foldl_append, Nat.add_assoc]; try rfl)

theorem normalizeNormals_get? (ns : List Vec3) (cs : List Nat) (i : Nat) :
    (normalizeNormals ns cs)[i]? =
      ns[i]?.bind fun n => cs[i]?.map fun c => n.divS (.fin (.ofInt c)) := by
  induction ns generalizing cs i with
  | nil => simp [normalizeNormals]
  | cons n ns ih =>
    cases cs with
    | nil => simp [normalizeNormals]
    | cons c cs =>
      cases i with
      | zero => simp [normalizeNormals]
      | succ j => simpa [normalizeNormals] using ih cs j

/-- Per-vertex characterisation of the whole normal computation: for every
in-bounds vertex index, the computed normal is the fold of the
contributing face normals (in loop order) starting at `[0,0,0]`, divided
componentwise by the number of contributing occurrences. -/
theorem computeNormals_get? {stl : IndexedMesh} {ns : List Vec3}
    (h : computeNormals stl = some ns) (i : Nat)
    (hi : i < stl.vertices.length) :
    ns[i]? = some (((occsAll stl.faces i).foldl Vec3.add Vec3.zero).divS
      (.fin (.ofInt ((occsAll stl.faces i).length)))) := by
  unfold computeNormals at h
  rcases Option.map_eq_some'.mp h with ⟨acc, hacc, rfl⟩
  obtain ⟨ev, ec⟩ := accFaces_get? hacc i
  have hz : (stl.vertices.map fun _ => Vec3.zero)[i]? = some Vec3.zero := by
    rw [List.getElem?_map, List.getElem?_eq_getElem hi]
    rfl
  have hc : (List.replicate (stl.vertices.map fun _ => Vec3.zero).length 0)[i]?
      = some 0 := by
    rw [List.getElem?_replicate]
    simp [hi]
  rw [normalizeNormals_get?, ev, ec, hz, hc]
  simp

/-! ### C2: per-vertex normals are the mean of referencing face normals -/

/-- C2 (confirmed): for every mesh in which every vertex is referenced by
at least one face, whenever the normal computation of
`convert_stl_to_gltf` (lib.rs lines 54–75) completes, the normal it
computes for vertex `i` equals, component-wise, the sum of the normals of
the faces referencing `i` (one contribution per referencing occurrence, in
loop order) divided by the number of referencing occurrences — the
arithmetic mean of the referencing faces' normals. -/
theorem C2_vertex_normal_is_mean (stl : IndexedMesh) (ns : List Vec3)
    (h : computeNormals stl = some ns)
    (href : ∀ i, i < stl.vertices.length → occsAll stl.faces i ≠ [])
    (i : Nat) (hi : i < stl.vertices.length) :
    ns[i]? = some (((occsAll stl.faces i).foldl Vec3.add Vec3.zero).divS
      (.fin (.ofInt ((occsAll stl.faces i).length)))) :=
  computeNormals_get? h i hi

/-- The per-vertex normals the pipeline computes on `tri`. -/
def triNormals : List Vec3 :=
  [⟨.fin ⟨0, 0⟩, .fin ⟨0, 0⟩, .fin ⟨1, 0⟩⟩,
   ⟨.fin ⟨0, 0⟩, .fin ⟨0, 0⟩, .fin ⟨1, 0⟩⟩,
   ⟨.fin ⟨0, 0⟩, .fin ⟨0, 0⟩, .fin ⟨1, 0⟩⟩]

/-- C2, witness: on the single-triangle mesh every vertex is referenced,
the computation completes, and vertex 0's normal is the mean of its
referencing faces' normals. -/
theorem C2_witness :
    computeNormals tri = some triNormals ∧
    (∀ i, i < tri.vertices.length → occsAll tri.faces i ≠ []) ∧
    0 < tri.vertices.length ∧
    triNormals[0]? = some (((occsAll tri.faces 0).foldl Vec3.add Vec3.zero).divS
      (.fin (.ofInt ((occsAll tri.faces 0).length)))) :=
  ⟨by decide, by decide, by decide,
    C2_vertex_normal_is_mean tri triNormals (by decide) (by decide) 0 (by decide)⟩

/-! ### C10: a vertex referenced by zero faces yields a NaN normal -/

/-- C10 (confirmed): whenever the normal computation completes, a vertex
referenced by zero faces gets the zero accumulated sum divided by the zero
count with no guard, producing `[NaN, NaN, NaN]` rather than zero. -/
theorem C10_unreferenced_vertex_nan (stl : IndexedMesh) (ns : List Vec3)
    (h : computeNormals stl = some ns) (i : Nat)
    (hi : i < stl.vertices.length) (hz : occsAll stl.faces i = []) :
    ns[i]? = some ⟨.nan, .nan, .nan⟩ := by
  have e := computeNormals_get? h i hi
  rw [hz] at e
  exact e.trans (by decide)

/-- C10, witness: the one-vertex, zero-face mesh `lonely` gets the normal
`[NaN, NaN, NaN]` for its unreferenced vertex 0. -/
theorem C10_witness :
    computeNormals lonely = some [⟨.nan, .nan, .nan⟩] ∧
    0 < lonely.vertices.length ∧ occsAll lonely.faces 0 = [] ∧
    [(⟨.nan, .nan, .nan⟩ : Vec3)][0]? = some (⟨.nan, .nan, .nan⟩ : Vec3) :=
  ⟨by decide, by decide, by decide,
    C10_unreferenced_vertex_nan lonely [⟨.nan, .nan, .nan⟩] (by decide) 0
      (by decide) (by decide)⟩

theorem getElem?_isSome_iff {α : Type} (l : List α) (i : Nat) :
    l[i]?.isSome = true ↔ i < l.length := by
  constructor
  · intro h
    by_contra hlt
    rw [List.getElem?_eq_none (Nat.le_of_not_lt hlt)] at h
    simp at h
  · intro h
    rw [List.getElem?_eq_getElem h]
    rfl

theorem addNormalAt_isSome (acc : List Vec3 × List Nat) (vi : Nat) (n : Vec3) :
    (addNormalAt acc vi n).isSome = true ↔
      vi < acc.1.length ∧ vi < acc.2.length := by
  unfold addNormalAt
  rw [← getElem?_isSome_iff acc.1 vi, ← getElem?_isSome_iff acc.2 vi]
  rw [← List.get?_eq_getElem? acc.1 vi, ← List.get?_eq_getElem? acc.2 vi]
  cases hv : acc.1.get? vi <;> cases hc : acc.2.get? vi <;> simp

theorem addNormalAt_lengths {acc acc' : List Vec3 × List Nat} {vi : Nat}
    {n : Vec3} (h : addNormalAt acc vi n = some acc') :
    acc'.1.length = acc.1.length ∧ acc'.2.length = acc.2.length := by
  unfold addNormalAt at h
  cases hv : acc.1.get? vi <;> rw [hv] at h
  · exact absurd h (by simp)
  cases hc : acc.2.get? vi <;> rw [hc] at h
  · exact absurd h (by simp)
  obtain rfl := Option.some_injective _ h
  simp

theorem accFace_isSome (acc : List Vec3 × List Nat) (f : Face)
    (hlen : acc.2.length = acc.1.length) :
    (accFace acc f).isSome = true ↔
      f.v0 < acc.1.length ∧ f.v1 < acc.1.length ∧ f.v2 < acc.1.length := by
  unfold accFace
  cases h0 : addNormalAt acc f.v0 f.normal with
  | none =>
    have hn : ¬(f.v0 < acc.1.length ∧ f.v0 < acc.2.length) := by
      rw [← addNormalAt_isSome acc f.v0 f.normal, h0]
      simp
    rw [hlen] at hn
    simp only [Option.none_bind, Option.isSome_none]
    constructor
    · intro h; cases h
    · intro h
      exact absurd ⟨h.1, h.1⟩ hn
  | some a1 =>
    have h0' : f.v0 < acc.1.length ∧ f.v0 < acc.2.length := by
      have := (addNormalAt_isSome acc f.v0 f.normal).mp (by rw [h0]; rfl)
      exact this
    obtain ⟨la1, la2⟩ := addNormalAt_lengths h0
    simp only [Option.some_bind]
    cases h1 : addNormalAt a1 f.v1 f.normal with
    | none =>
      have hn : ¬(f.v1 < a1.1.length ∧ f.v1 < a1.2.length) := by
        rw [← addNormalAt_isSome a1 f.v1 f.normal, h1]
        simp
      rw [la1, la2, hlen] at hn
      simp only [Option.none_bind, Option.isSome_none]
      constructor
      · intro h; cases h
      · intro h
        exact absurd ⟨h.2.1, h.2.1⟩ hn
    | some a2 =>
      have h1' : f.v1 < a1.1.length ∧ f.v1 < a1.2.length := by
        have := (addNormalAt_isSome a1 f.v1 f.normal).mp (by rw [h1]; rfl)
        exact this
      rw [la1, la2, hlen] at h1'
      obtain ⟨lb1, lb2⟩ := addNormalAt_lengths h1
      simp only [Option.some_bind]
      rw [addNormalAt_isSome a2 f.v2 f.normal, lb1, lb2, la1, la2, hlen]
      rw [hlen] at h0' 
      constructor
      · intro h
        exact ⟨h0'.1, h1'.1, h.1⟩
      · intro h
        exact ⟨h.2.2, h.2.2⟩

theorem accFace_lengths {acc acc' : List Vec3 × List Nat} {f : Face}
    (h : accFace acc f = some acc') :
    acc'.1.length = acc.1.length ∧ acc'.2.length = acc.2.length := by
  unfold accFace at h
  rcases Option.bind_eq_some.mp h with ⟨a1, h1, h'⟩
  rcases Option.bind_eq_some.mp h' with ⟨a2, h2, h3⟩
  obtain ⟨e1, e2⟩ := addNormalAt_lengths h1
  obtain ⟨e3, e4⟩ := addNormalAt_lengths h2
  obtain ⟨e5, e6⟩ := addNormalAt_lengths h3
  exact ⟨by rw [e5, e3, e1], by rw [e6, e4, e2]⟩

theorem accFaces_isSome (faces : List Face) (acc : List Vec3 × List Nat)
    (hlen : acc.2.length = acc.1.length) :
    (accFaces faces acc).isSome = true ↔
      ∀ f ∈ faces, f.v0 < acc.1.length ∧ f.v1 < acc.1.length ∧
        f.v2 < acc.1.length := by
  induction faces generalizing acc with
  | nil => simp [accFaces]
  | cons f fs ih =>
    show ((accFace acc f).bind (accFaces fs)).isSome = true ↔ _
    cases hf : accFace acc f with
    | none =>
      have hn : ¬(f.v0 < acc.1.length ∧ f.v1 < acc.1.length ∧
          f.v2 < acc.1.length) := by
        rw [← accFace_isSome acc f hlen, hf]
        simp
      simp only [Option.none_bind, Option.isSome_none, List.mem_cons]
      constructor
      · intro h; cases h
      · intro h
        exact absurd (h f (Or.inl rfl)) hn
    | some a1 =>
      have hPf : f.v0 < acc.1.length ∧ f.v1 < acc.1.length ∧
          f.v2 < acc.1.length :=
        (accFace_isSome acc f hlen).mp (by rw [hf]; rfl)
      obtain ⟨l1, l2⟩ := accFace_lengths hf
      have := ih a1 (by rw [l1, l2]; exact hlen)
      rw [l1] at this
      simp only [Option.some_bind]
      rw [this]
      simp only [List.mem_cons]
      constructor
      · intro h g hg
        rcases hg with rfl | hg
        · exact hPf
        · exact h g hg
      · intro h g hg
        exact h g (Or.inr hg)

/-- The conversion returns a value exactly when the accumulation loop does
(all later steps of the pipeline are total). -/
theorem convert_isSome_eq (stl : IndexedMesh) (stem : String) :
    (convert_stl_to_gltf stl (some stem)).isSome =
      (accFaces stl.faces
        (stl.vertices.map fun _ => Vec3.zero,
         List.replicate (stl.vertices.map fun _ => Vec3.zero).length 0)).isSome := by
  unfold convert_stl_to_gltf
  cases hacc : accFaces stl.faces
      (stl.vertices.map fun _ => Vec3.zero,
       List.replicate (stl.vertices.map fun _ => Vec3.zero).length 0) with
  | none =>
    simp only [hacc]
    rfl
  | some a =>
    cases a
    simp only [hacc]
    rfl

/-! ### C8: the accumulation loop is in bounds iff all indices are -/

/-- C8 (confirmed): the array indexing of the normal-accumulation loop is
in bounds — equivalently, `convert_stl_to_gltf` runs to completion, since
every other step is total — if and only if every face's three vertex
indices are strictly below the number of vertices. -/
theorem C8_accumulation_in_bounds_iff (stl : IndexedMesh) (stem : String) :
    (convert_stl_to_gltf stl (some stem)).isSome = true ↔
      ∀ f ∈ stl.faces, f.v0 < stl.vertices.length ∧
        f.v1 < stl.vertices.length ∧ f.v2 < stl.vertices.length := by
  rw [convert_isSome_eq stl stem,
    accFaces_isSome stl.faces _ (by simp)]
  simp

/-- Unfolding of the pipeline: once the accumulation loop has produced
`p`, the returned builder is this explicit document. -/
theorem convert_unfold (stl : IndexedMesh) (stem : String)
    {p : List Vec3 × List Nat}
    (hacc : accFaces stl.faces
      (stl.vertices.map fun _ => Vec3.zero,
       List.replicate (stl.vertices.map fun _ => Vec3.zero).length 0) = some p) :
    convert_stl_to_gltf stl (some stem) = some (Except.ok
      { buffers :=
          [⟨some "positions", .f32x3 stl.vertices⟩,
           ⟨some "normals", .f32x3 (normalizeNormals p.1 p.2)⟩,
           ⟨some "indices", .u32 (stl.faces.flatMap fun f =>
              [f.v0 % 2 ^ 32, f.v1 % 2 ^ 32, f.v2 % 2 ^ 32])⟩],
        bufferViews :=
          [⟨0, 0, 12 * stl.vertices.length, none, none⟩,
           ⟨1, 0, 12 * (normalizeNormals p.1 p.2).length, none, none⟩,
           ⟨2, 0, 4 * (stl.faces.flatMap fun f =>
              [f.v0 % 2 ^ 32, f.v1 % 2 ^ 32, f.v2 % 2 ^ 32]).length, some 1, none⟩],
        accessors :=
          [⟨some "positions", 0, 0, stl.vertices.length, .vec3f,
            some (bounding_coords stl.vertices).1,
            some (bounding_coords stl.vertices).2⟩,
           ⟨some "normals", 1, 3, stl.vertices.length, .vec3f, none, none⟩,
           ⟨some "indices", 2, 0, (stl.faces.flatMap fun f =>
              [f.v0 % 2 ^ 32, f.v1 % 2 ^ 32, f.v2 % 2 ^ 32]).length,
            .scalarU32, none, none⟩],
        meshes :=
          [⟨some stem, [⟨[(.Positions, 0), (.Normals, 1)], some 2, .Triangles⟩]⟩],
        nodes := [⟨some stem, some 0⟩],
        scenes := [⟨[0]⟩],
        defaultScene := some 0 }) := by
  obtain ⟨ns, cs⟩ := p
  unfold convert_stl_to_gltf
  simp only [hacc]
  rfl

/-! ### C9: the conversion never returns the `Err` variant -/

/-- C9 (confirmed): whenever `convert_stl_to_gltf` returns at all (its
input path has a file stem and no panic occurs), the returned value is
`Ok`; no execution path produces the `Err` variant of
`Result<GltfBuilder, String>`. -/
theorem C9_never_err (stl : IndexedMesh) (stem : String)
    (r : Except String GltfBuilder)
    (h : convert_stl_to_gltf stl (some stem) = some r) :
    ∃ g, r = Except.ok g := by
  cases hacc : accFaces stl.faces
      (stl.vertices.map fun _ => Vec3.zero,
       List.replicate (stl.vertices.map fun _ => Vec3.zero).length 0) with
  | none =>
    have hnone : convert_stl_to_gltf stl (some stem) = none := by
      unfold convert_stl_to_gltf
      simp only [hacc]
      rfl
    rw [hnone] at h
    cases h
  | some p =>
    rw [convert_unfold stl stem hacc] at h
    exact ⟨_, (Option.some_injective _ h).symm⟩

/-- C9, witness: on the single-triangle mesh with stem "torus" the
conversion returns, and the returned value is `Ok`. -/
theorem C9_witness :
    convert_stl_to_gltf tri (some "torus") = some (.ok triBuilder) ∧
    ∃ g, (Except.ok triBuilder : Except String GltfBuilder) = Except.ok g :=
  ⟨by decide, C9_never_err tri "torus" (.ok triBuilder) (by decide)⟩

/-! ### C3: the document holds exactly one mesh, node, scene -/

/-- C3 (confirmed): the document built by the pipeline contains exactly
one mesh holding exactly one triangle-mode primitive whose attributes map
`Positions` to accessor 0 (the pushed position accessor) and `Normals` to
accessor 1 (the pushed normal accessor) and whose indices field is
accessor 2 (the pushed index accessor); exactly one node, named after the
input file's stem, referencing that mesh; exactly one scene containing
exactly that node; and the default scene set to it. -/
theorem C3_document_structure (stl : IndexedMesh) (stem : String)
    (g : GltfBuilder)
    (h : convert_stl_to_gltf stl (some stem) = some (.ok g)) :
    g.meshes =
      [⟨some stem, [⟨[(.Positions, 0), (.Normals, 1)], some 2, .Triangles⟩]⟩] ∧
    (g.accessors.map fun a => (a.name, a.kind)) =
      [(some "positions", .vec3f), (some "normals", .vec3f),
       (some "indices", .scalarU32)] ∧
    g.nodes = [⟨some stem, some 0⟩] ∧
    g.scenes = [⟨[0]⟩] ∧
    g.defaultScene = some 0 := by
  cases hacc : accFaces stl.faces
      (stl.vertices.map fun _ => Vec3.zero,
       List.replicate (stl.vertices.map fun _ => Vec3.zero).length 0) with
  | none =>
    have hnone : convert_stl_to_gltf stl (some stem) = none := by
      unfold convert_stl_to_gltf
      simp only [hacc]
      rfl
    rw [hnone] at h
    cases h
  | some p =>
    rw [convert_unfold stl stem hacc] at h
    have hg := Option.some_injective _ h
    obtain rfl : _ = g := congrArg (fun r => match r with
      | Except.ok g => g
      | Except.error _ => GltfBuilder.new) hg
    exact ⟨rfl, rfl, rfl, rfl, rfl⟩

/-- C3, witness: instantiation on the single-triangle mesh. -/
theorem C3_witness :
    convert_stl_to_gltf tri (some "torus") = some (.ok triBuilder) ∧
    (triBuilder.meshes =
      [⟨some "torus", [⟨[(.Positions, 0), (.Normals, 1)], some 2, .Triangles⟩]⟩] ∧
    (triBuilder.accessors.map fun a => (a.name, a.kind)) =
      [(some "positions", .vec3f), (some "normals", .vec3f),
       (some "indices", .scalarU32)] ∧
    triBuilder.nodes = [⟨some "torus", some 0⟩] ∧
    triBuilder.scenes = [⟨[0]⟩] ∧
    triBuilder.defaultScene = some 0) :=
  ⟨by decide, C3_document_structure tri "torus" triBuilder (by decide)⟩

theorem indexData_length (fs : List Face) :
    (fs.flatMap fun f =>
      [f.v0 % 2 ^ 32, f.v1 % 2 ^ 32, f.v2 % 2 ^ 32]).length = 3 * fs.length := by
  induction fs with
  | nil => rfl
  | cons f fs ih =>
    simp only [List.flatMap_cons, List.length_append, ih, List.length_cons,
      List.length_nil]
    omega

/-! ### C5: the index buffer, its tagged view, and its accessor -/

/-- C5 (confirmed): the index data pushed by the pipeline is the
concatenation, in face order, of each face's three vertex indices (first,
second, third) cast to `u32`; its buffer view (view 2) carries the
index-data target tag `some 1` while the position and normal views are
untagged; and the index accessor reads `3 * (number of faces)` scalar
`u32` elements of view 2 starting at byte offset 0. -/
theorem C5_index_data (stl : IndexedMesh) (stem : String) (g : GltfBuilder)
    (h : convert_stl_to_gltf stl (some stem) = some (.ok g)) :
    g.buffers[2]?.map (fun b => b.data) =
      some (.u32 (stl.faces.flatMap fun f =>
        [f.v0 % 2 ^ 32, f.v1 % 2 ^ 32, f.v2 % 2 ^ 32])) ∧
    (g.bufferViews.map fun v => v.target) = [none, none, some 1] ∧
    g.accessors[2]? =
      some ⟨some "indices", 2, 0, 3 * stl.faces.length, .scalarU32,
        none, none⟩ := by
  cases hacc : accFaces stl.faces
      (stl.vertices.map fun _ => Vec3.zero,
       List.replicate (stl.vertices.map fun _ => Vec3.zero).length 0) with
  | none =>
    have hnone : convert_stl_to_gltf stl (some stem) = none := by
      unfold convert_stl_to_gltf
      simp only [hacc]
      rfl
    rw [hnone] at h
    cases h
  | some p =>
    rw [convert_unfold stl stem hacc] at h
    have hg := Option.some_injective _ h
    obtain rfl : _ = g := congrArg (fun r => match r with
      | Except.ok g => g
      | Except.error _ => GltfBuilder.new) hg
    refine ⟨rfl, rfl, ?_⟩
    simp only [indexData_length]
    rfl

/-- C5, witness: instantiation on the single-triangle mesh. -/
theorem C5_witness :
    convert_stl_to_gltf tri (some "torus") = some (.ok triBuilder) ∧
    (triBuilder.buffers[2]?.map (fun b => b.data) =
      some (.u32 (tri.faces.flatMap fun f =>
        [f.v0 % 2 ^ 32, f.v1 % 2 ^ 32, f.v2 % 2 ^ 32])) ∧
    (triBuilder.bufferViews.map fun v => v.target) = [none, none, some 1] ∧
    triBuilder.accessors[2]? =
      some ⟨some "indices", 2, 0, 3 * tri.faces.length, .scalarU32,
        none, none⟩) :=
  ⟨by decide, C5_index_data tri "torus" triBuilder (by decide)⟩

theorem bytesBeforeBuffer_eq (bufs : List (List Nat)) (i : Nat) :
    bytesBeforeBuffer bufs i = ((bufs.take i).flatten).length := by
  rw [List.length_flatten, bytesBeforeBuffer]

/-- Reading inside one buffer of a concatenation, at the offset shifted by
the bytes that precede that buffer, reads the same bytes. -/
theorem flatten_read_aux (A : List (List Nat)) (buf : List Nat)
    (B : List (List Nat)) (k cnt : Nat) (hk : k + cnt ≤ buf.length) :
    ((A ++ buf :: B).flatten.drop (A.flatten.length + k)).take cnt =
      (buf.drop k).take cnt := by
  rw [List.flatten_append, List.flatten_cons, List.drop_append,
    List.drop_append_of_le_length (by omega),
    List.take_append_of_le_length (by rw [List.length_drop]; omega)]

theorem flatten_read {bufs : List (List Nat)} {b : Nat} {buf : List Nat}
    (hb : bufs[b]? = some buf) (k cnt : Nat) (hk : k + cnt ≤ buf.length) :
    (bufs.flatten.drop (bytesBeforeBuffer bufs b + k)).take cnt =
      (buf.drop k).take cnt := by
  obtain ⟨hlt, hget⟩ := List.getElem?_eq_some.mp hb
  have hsplit : bufs = bufs.take b ++ buf :: bufs.drop (b + 1) := by
    rw [← hget, ← List.drop_eq_getElem_cons hlt, List.take_append_drop]
  calc (bufs.flatten.drop (bytesBeforeBuffer bufs b + k)).take cnt
      = ((bufs.take b ++ buf :: bufs.drop (b + 1)).flatten.drop
          ((bufs.take b).flatten.length + k)).take cnt := by
        rw [← hsplit, ← bytesBeforeBuffer_eq]
    _ = (buf.drop k).take cnt := flatten_read_aux _ _ _ k cnt hk

theorem bytesBeforeBuffer_le {bufs : List (List Nat)} {b : Nat}
    {buf : List Nat} (hb : bufs[b]? = some buf) :
    bytesBeforeBuffer bufs b + buf.length ≤ bufs.flatten.length := by
  obtain ⟨hlt, hget⟩ := List.getElem?_eq_some.mp hb
  have hsplit : bufs = bufs.take b ++ buf :: bufs.drop (b + 1) := by
    rw [← hget, ← List.drop_eq_getElem_cons hlt, List.take_append_drop]
  rw [bytesBeforeBuffer_eq]
  conv_rhs => rw [hsplit]
  rw [List.flatten_append, List.flatten_cons]
  simp [List.length_append]

/-! ### C7: buffer merge preserves addressable byte content -/

/-- C7 (confirmed, against the spec model of `merge_gltf_buffers`): for
every structurally well-formed builder-form document, the byte content
addressable through any `(view, offset, count)` triple is identical
before and after the buffer merge, even though every view's absolute byte
offset is rewritten to its position in the single concatenated buffer. -/
theorem C7_merge_preserves_content (d : BDoc) (hwf : d.wf = true)
    (viewIdx off count : Nat) :
    readBytes (merge_gltf_buffers d) viewIdx off count =
      readBytes d viewIdx off count := by
  unfold readBytes merge_gltf_buffers
  simp only [List.getElem?_map]
  cases hv : d.views[viewIdx]? with
  | none => rfl
  | some v =>
    simp only [Option.map_some']
    have hvmem : v ∈ d.views := List.getElem?_mem hv
    have hfit := (List.all_eq_true.mp hwf) v hvmem
    cases hb : d.buffers[v.buffer]? with
    | none => rw [hb] at hfit; cases hfit
    | some buf =>
      rw [hb] at hfit
      have hfit' : v.byteOffset + v.byteLength ≤ buf.length := by
        simpa using hfit
      have h0 : ([d.buffers.flatten] : List (List Nat))[(0 : Nat)]? =
          some d.buffers.flatten := rfl
      rw [h0]
      show (if off + count ≤ v.byteLength ∧
            bytesBeforeBuffer d.buffers v.buffer + v.byteOffset + v.byteLength ≤
              d.buffers.flatten.length then
          some ((d.buffers.flatten.drop
            (bytesBeforeBuffer d.buffers v.buffer + v.byteOffset + off)).take count)
        else none) =
        (if off + count ≤ v.byteLength ∧ v.byteOffset + v.byteLength ≤ buf.length
          then some ((buf.drop (v.byteOffset + off)).take count)
        else none)
      by_cases hoc : off + count ≤ v.byteLength
      · have hcond2 : bytesBeforeBuffer d.buffers v.buffer + v.byteOffset +
            v.byteLength ≤ d.buffers.flatten.length := by
          have := bytesBeforeBuffer_le hb
          omega
        rw [if_pos ⟨hoc, hcond2⟩, if_pos ⟨hoc, hfit'⟩]
        have hread := flatten_read hb (v.byteOffset + off) count (by omega)
        rw [← Nat.add_assoc] at hread
        rw [hread]
      · rw [if_neg (fun hc => hoc hc.1), if_neg (fun hc => hoc hc.1)]

/-- A small well-formed two-buffer document used to witness the merge
claim. -/
def mergeDemo : BDoc := ⟨[[1, 2, 3], [4, 5, 6, 7]], [⟨1, 1, 3, none⟩]⟩

/-- C7, witness: on a concrete well-formed two-buffer document, reading
through the view yields the same bytes before and after the merge. -/
theorem C7_witness :
    mergeDemo.wf = true ∧
    readBytes (merge_gltf_buffers mergeDemo) 0 1 2 = readBytes mergeDemo 0 1 2 :=
  ⟨by decide, C7_merge_preserves_content mergeDemo (by decide) 0 1 2⟩
